import Mathlib

/-!
Verification of the SpotifyManager playback automation program.

The development shallowly embeds src/SpotifyManager.py:

* the credential file is a value of FileState: missing (FileNotFoundError on
  open), malformed (json.JSONDecodeError on parse), or a parsed document
  CredDoc whose optional spotify section carries the fields the program
  reads; unknown extra keys of the JSON objects are kept abstractly so that
  frame properties are meaningful;
* pure methods of the class (load_client_credentials, get_access_token,
  is_token_valid, request_new_token, update_credentials_file, is_enabled,
  play_episode's HTTP branch) become total Lean functions; Python exceptions
  become Except values and remote HTTP traffic becomes explicit response
  arguments;
* the asyncio part (play_episode under the semaphore, play_randomly with
  its gather barrier) becomes a small-step transition relation: cycleStep
  models one cycle's tasks admitted by the counting semaphore, schedStep
  models the enabled-check / shuffle / run-cycle / barrier loop.
-/

/-- The "spotify" object of the credentials JSON document. Fields the code
reads with .get are Option-valued (episode_ids defaults to [] in the code
itself); sExtra stands for any other keys of the object, which the program
never touches. -/
structure SpotifySection where
  client_id : Option String
  client_secret : Option String
  podcast_id : Option String
  episode_ids : List String
  device_id : Option String
  access_token : Option String
  enabled : Option Bool
  sExtra : List (String × String)
deriving DecidableEq

/-- A parsed credentials JSON document: the optional "spotify" section plus
any other top-level keys (dExtra), which the program never touches. -/
structure CredDoc where
  spotify : Option SpotifySection
  dExtra : List (String × String)
deriving DecidableEq

/-- Phase of the credential file on disk as the program observes it:
absent file, unparsable JSON, or a parsed document. -/
inductive FileState where
  | missing : FileState
  | malformed : FileState
  | doc : CredDoc → FileState
deriving DecidableEq

/-- The empty JSON object the code supplies as default for a missing
"spotify" section (credentials.get("spotify", {})). -/
def emptySection : SpotifySection :=
  { client_id := none, client_secret := none, podcast_id := none,
    episode_ids := [], device_id := none, access_token := none,
    enabled := none, sExtra := [] }

/-- Python truthiness of an optional string: None and "" are falsy. -/
def truthyS : Option String → Bool
  | none => false
  | some s => !(s == "")

/-- Errors raised during startup configuration loading. fileError stands
for the FileNotFoundError re-raised on a missing or unparsable file;
missingFields stands for the ValueError on missing required fields. The
spec groups both under ConfigError. -/
inductive ConfigError where
  | fileError : ConfigError
  | missingFields : ConfigError
deriving DecidableEq

/-- Embeds load_client_credentials: read the file, extract the five
required fields from the spotify section, and return them only if all are
truthy (episode_ids nonempty); otherwise raise. -/
def load_client_credentials (fs : FileState) :
    Except ConfigError (String × String × String × List String × String) :=
  match fs with
  | .missing => .error .fileError
  | .malformed => .error .fileError
  | .doc d =>
    let s := d.spotify.getD emptySection
    if truthyS s.client_id && truthyS s.client_secret && truthyS s.podcast_id
        && !s.episode_ids.isEmpty && truthyS s.device_id then
      .ok (s.client_id.getD "", s.client_secret.getD "", s.podcast_id.getD "",
           s.episode_ids, s.device_id.getD "")
    else
      .error .missingFields

/-- Embeds is_token_valid: the GET {base}/me identity probe, abstracted as
a function from the presented token to the HTTP status it earns; valid
means status 200. -/
def is_token_valid (probe : String → Nat) (token : String) : Bool :=
  probe token == 200

/-- The response of the POST to the accounts token endpoint: HTTP status,
the body rendered for the error message, and the access_token field of the
JSON body (response.json().get("access_token")). -/
structure ExchangeResponse where
  status : Nat
  body : String
  access_token : Option String
deriving DecidableEq

/-- Errors get_access_token can raise: the re-raised FileNotFoundError, or
the exception of request_new_token carrying status and body (the spec's
AuthError). -/
inductive TokenError where
  | fileError : TokenError
  | authError : Nat → String → TokenError
deriving DecidableEq

/-- Embeds update_credentials_file: re-read the document (falling back to
an empty one when missing or unparsable), setdefault the spotify section,
overwrite its access_token, and write the result back. Returns the
document now on disk. -/
def update_credentials_file (fs : FileState) (access_token : Option String) :
    CredDoc :=
  let credentials : CredDoc :=
    match fs with
    | .doc d => d
    | _ => { spotify := none, dExtra := [] }
  let s := credentials.spotify.getD emptySection
  { credentials with spotify := some { s with access_token := access_token } }

/-- Embeds request_new_token, instrumented with the number of exchange
calls performed (always 1: the POST happens before the status check). On a
non-200 status the call raises with status and body and writes nothing; on
200 it persists the token from the body and returns it. The FileState
component is the file after the call. -/
def request_new_token (fs : FileState) (ex : ExchangeResponse) :
    Except TokenError (Option String) × Nat × FileState :=
  if ex.status ≠ 200 then
    (.error (.authError ex.status ex.body), 1, fs)
  else
    (.ok ex.access_token, 1, .doc (update_credentials_file fs ex.access_token))

/-- Embeds get_access_token, instrumented with the number of token-exchange
calls performed. Reads the cached token; if it is truthy and the identity
probe answers 200 it is returned with no exchange; otherwise control falls
through to request_new_token. A missing or unparsable file re-raises. -/
def get_access_token (fs : FileState) (probe : String → Nat)
    (ex : ExchangeResponse) :
    Except TokenError (Option String) × Nat × FileState :=
  match fs with
  | .missing => (.error .fileError, 0, fs)
  | .malformed => (.error .fileError, 0, fs)
  | .doc d =>
    match (d.spotify.getD emptySection).access_token with
    | some t =>
      if !(t == "") && is_token_valid probe t then (.ok (some t), 0, .doc d)
      else request_new_token (.doc d) ex
    | none => request_new_token (.doc d) ex

/-- The two exceptions the try body of is_enabled can raise. -/
inductive ReadErr where
  | fileNotFound : ReadErr
  | jsonDecode : ReadErr
deriving DecidableEq

/-- The try body of is_enabled: open and parse the file and read
spotify.enabled with default False; raises on a missing or unparsable
file. -/
def read_enabled_raw : FileState → Except ReadErr Bool
  | .missing => .error .fileNotFound
  | .malformed => .error .jsonDecode
  | .doc d => .ok ((d.spotify.getD emptySection).enabled.getD false)

/-- Embeds is_enabled: the try body with its except clause, which prints a
warning and returns False. The pair is (returned flag, warning printed). -/
def is_enabled (fs : FileState) : Bool × Bool :=
  match read_enabled_raw fs with
  | .ok b => (b, false)
  | .error _ => (false, true)

/-- The HTTP response to the PUT {base}/me/player/play command: status and
the JSON body printed on failure. -/
structure HttpResponse where
  status : Nat
  body : String
deriving DecidableEq

/-- What one play_episode task reports for its episode: the 204 branch
(print, sleep, print) or the failure branch (print the body; no exception
is raised). -/
inductive PlayOutcome where
  | played : String → PlayOutcome
  | failed : String → String → PlayOutcome
deriving DecidableEq

/-- The branch play_episode takes once the PUT has been issued, as a
function of the response the remote service gives that episode. -/
def play_episode_result (resp : String → HttpResponse) (episode_id : String) :
    PlayOutcome :=
  if (resp episode_id).status == 204 then .played episode_id
  else .failed episode_id (resp episode_id).body

/-- The episode a PlayOutcome is about. -/
def episodeOf : PlayOutcome → String
  | .played e => e
  | .failed e _ => e

/-- The outcomes of one cycle of play_randomly over a shuffled order perm:
one play_episode task per entry, each producing an outcome. -/
def run_cycle (resp : String → HttpResponse) (perm : List String) :
    List PlayOutcome :=
  perm.map (play_episode_result resp)

/-- Where one play_episode task stands relative to the semaphore: not yet
admitted (blocked in the semaphore acquire), inside the async-with block
with its PUT issued (in flight), or finished (block exited, permit
released). -/
inductive Phase where
  | waiting : Phase
  | inFlight : Phase
  | done : Phase
deriving DecidableEq

/-- The state of one cycle of play_randomly: the tasks in dispatch order
(episode id and phase), the counting semaphore's current value, and the
play commands issued so far in issue order. -/
structure CycleState where
  tasks : List (String × Phase)
  permits : Nat
  dispatched : List String
deriving DecidableEq

/-- Small-step semantics of a cycle's tasks under the asyncio semaphore.
acquire: a waiting task enters the async-with block when the semaphore is
positive, decrementing it and issuing its PUT (the requests.put call is
synchronous, so the command is issued atomically with admission).
finish: an in-flight task leaves the block — through the 204 branch after
its sleep or through the failure branch immediately — releasing its
permit. -/
inductive cycleStep : CycleState → CycleState → Prop
  | acquire (pre post : List (String × Phase)) (e : String) (p : Nat)
      (dispatched : List String) :
      cycleStep
        ⟨pre ++ (e, .waiting) :: post, p + 1, dispatched⟩
        ⟨pre ++ (e, .inFlight) :: post, p, dispatched ++ [e]⟩
  | finish (pre post : List (String × Phase)) (e : String) (p : Nat)
      (dispatched : List String) :
      cycleStep
        ⟨pre ++ (e, .inFlight) :: post, p, dispatched⟩
        ⟨pre ++ (e, .done) :: post, p + 1, dispatched⟩

/-- The state at the top of a cycle: tasks for the shuffled order perm all
waiting, the semaphore at max_concurrent, nothing dispatched. -/
def initCycle (max_concurrent : Nat) (perm : List String) : CycleState :=
  ⟨perm.map (fun e => (e, Phase.waiting)), max_concurrent, []⟩

/-- Number of tasks currently inside the async-with block, i.e. play
commands in flight past the admission gate. -/
def inFlightCount (c : CycleState) : Nat :=
  c.tasks.countP (fun t => t.2 == Phase.inFlight)

/-- Episode ids of the tasks still waiting for admission. -/
def waitingIds (ts : List (String × Phase)) : List String :=
  ts.filterMap (fun t => if t.2 = Phase.waiting then some t.1 else none)

/-- All tasks of the cycle have completed: what asyncio.gather waits
for. -/
def allDone (ts : List (String × Phase)) : Prop :=
  ∀ t ∈ ts, t.2 = Phase.done

/-- Semaphore accounting invariant of a cycle: available permits plus
in-flight tasks equal the configured bound. -/
def semInv (max_concurrent : Nat) (c : CycleState) : Prop :=
  c.permits + inFlightCount c = max_concurrent

theorem semInv_init (max_concurrent : Nat) (perm : List String) :
    semInv max_concurrent (initCycle max_concurrent perm) := by
  simp [semInv, initCycle, inFlightCount]

theorem semInv_step {max_concurrent : Nat} {c c' : CycleState}
    (hinv : semInv max_concurrent c) (h : cycleStep c c') :
    semInv max_concurrent c' := by
  cases h with
  | acquire pre post e p dispatched =>
    simp [semInv, inFlightCount, List.countP_append, List.countP_cons]
      at hinv ⊢
    omega
  | finish pre post e p dispatched =>
    simp [semInv, inFlightCount, List.countP_append, List.countP_cons]
      at hinv ⊢
    omega

theorem semInv_reachable {max_concurrent : Nat} {perm : List String}
    {s : CycleState}
    (h : Relation.ReflTransGen cycleStep (initCycle max_concurrent perm) s) :
    semInv max_concurrent s := by
  induction h with
  | refl => exact semInv_init max_concurrent perm
  | tail _ hstep ih => exact semInv_step ih hstep

/-- Dispatch-accounting invariant of a cycle: the commands issued so far
together with the episodes still waiting are a permutation of the cycle's
task list, which itself stays the shuffled order. -/
def dispatchInv (perm : List String) (c : CycleState) : Prop :=
  (c.dispatched ++ waitingIds c.tasks).Perm (c.tasks.map Prod.fst)
  ∧ c.tasks.map Prod.fst = perm

theorem waitingIds_append (l₁ l₂ : List (String × Phase)) :
    waitingIds (l₁ ++ l₂) = waitingIds l₁ ++ waitingIds l₂ := by
  simp [waitingIds]

theorem waitingIds_cons_waiting (e : String) (ts : List (String × Phase)) :
    waitingIds ((e, Phase.waiting) :: ts) = e :: waitingIds ts := by
  simp [waitingIds, List.filterMap_cons]

theorem waitingIds_cons_inFlight (e : String) (ts : List (String × Phase)) :
    waitingIds ((e, Phase.inFlight) :: ts) = waitingIds ts := by
  simp [waitingIds, List.filterMap_cons]

theorem waitingIds_cons_done (e : String) (ts : List (String × Phase)) :
    waitingIds ((e, Phase.done) :: ts) = waitingIds ts := by
  simp [waitingIds, List.filterMap_cons]

theorem initTasks_map_fst (perm : List String) :
    (perm.map (fun e => (e, Phase.waiting))).map Prod.fst = perm := by
  induction perm with
  | nil => rfl
  | cons e l ih => simp [ih]

theorem initTasks_waitingIds (perm : List String) :
    waitingIds (perm.map (fun e => (e, Phase.waiting))) = perm := by
  induction perm with
  | nil => rfl
  | cons e l ih => simp [waitingIds_cons_waiting, ih]

theorem dispatchInv_init (max_concurrent : Nat) (perm : List String) :
    dispatchInv perm (initCycle max_concurrent perm) := by
  simp only [dispatchInv, initCycle]
  rw [initTasks_waitingIds, initTasks_map_fst]
  exact ⟨by simp, rfl⟩

theorem dispatchInv_step {perm : List String} {c c' : CycleState}
    (hinv : dispatchInv perm c) (h : cycleStep c c') : dispatchInv perm c' := by
  cases h with
  | acquire pre post e p dispatched =>
    simp only [dispatchInv] at hinv ⊢
    obtain ⟨hperm, hfst⟩ := hinv
    simp only [waitingIds_append, waitingIds_cons_waiting,
      waitingIds_cons_inFlight, List.map_append, List.map_cons]
      at hperm hfst ⊢
    constructor
    · have h1 : ((dispatched ++ [e]) ++ (waitingIds pre ++ waitingIds post)).Perm
          (dispatched ++ (waitingIds pre ++ e :: waitingIds post)) := by
        rw [List.append_assoc, List.singleton_append]
        exact List.Perm.append_left dispatched List.perm_middle.symm
      exact h1.trans hperm
    · exact hfst
  | finish pre post e p dispatched =>
    simp only [dispatchInv] at hinv ⊢
    obtain ⟨hperm, hfst⟩ := hinv
    simp only [waitingIds_append, waitingIds_cons_inFlight,
      waitingIds_cons_done, List.map_append, List.map_cons] at hperm hfst ⊢
    exact ⟨hperm, hfst⟩

theorem dispatchInv_reachable {max_concurrent : Nat} {perm : List String}
    {s : CycleState}
    (h : Relation.ReflTransGen cycleStep (initCycle max_concurrent perm) s) :
    dispatchInv perm s := by
  induction h with
  | refl => exact dispatchInv_init max_concurrent perm
  | tail _ hstep ih => exact dispatchInv_step ih hstep

theorem waitingIds_eq_nil_of_allDone {ts : List (String × Phase)}
    (h : allDone ts) : waitingIds ts = [] := by
  induction ts with
  | nil => rfl
  | cons t ts ih =>
    have ht : t.2 = Phase.done := h t (List.mem_cons_self t ts)
    have hts : allDone ts := fun x hx => h x (List.mem_cons_of_mem t hx)
    simp [waitingIds, List.filterMap_cons, ht] at *
    exact ih hts

/-- Progress measure of a cycle: waiting tasks count double so that both
acquire and finish strictly decrease it. -/
def measureC (ts : List (String × Phase)) : Nat :=
  2 * ts.countP (fun t => t.2 == Phase.waiting)
    + ts.countP (fun t => t.2 == Phase.inFlight)

theorem cycle_progress (max_concurrent : Nat) (hpos : 0 < max_concurrent) :
    ∀ (n : Nat) (c : CycleState), measureC c.tasks = n →
      semInv max_concurrent c →
      ∃ s', Relation.ReflTransGen cycleStep c s' ∧ allDone s'.tasks := by
  intro n
  induction n using Nat.strong_induction_on with
  | _ n ih =>
    intro c hm hinv
    by_cases hd : allDone c.tasks
    · exact ⟨c, .refl, hd⟩
    · obtain ⟨tasks, permits, dispatched⟩ := c
      simp only [allDone, not_forall] at hd
      obtain ⟨⟨e, ph⟩, hmem, hph⟩ := hd
      by_cases hin : ∃ x ∈ tasks, (x : String × Phase).2 = Phase.inFlight
      · obtain ⟨⟨e2, ph2⟩, hmem2, hph2⟩ := hin
        simp only at hph2
        subst hph2
        obtain ⟨pre, post, htasks⟩ := List.append_of_mem hmem2
        subst htasks
        have hstep := cycleStep.finish pre post e2 permits dispatched
        have hm' : measureC (pre ++ (e2, Phase.done) :: post)
            < measureC (pre ++ (e2, Phase.inFlight) :: post) := by
          simp [measureC, List.countP_append, List.countP_cons]
        have hinv' := semInv_step hinv hstep
        obtain ⟨s', hpath, hdone⟩ :=
          ih (measureC (pre ++ (e2, Phase.done) :: post)) (hm ▸ hm')
            ⟨pre ++ (e2, Phase.done) :: post, permits + 1, dispatched⟩ rfl hinv'
        exact ⟨s', Relation.ReflTransGen.head hstep hpath, hdone⟩
      · have hphw : ph = Phase.waiting := by
          cases ph with
          | waiting => rfl
          | inFlight => exact absurd ⟨(e, Phase.inFlight), hmem, rfl⟩ hin
          | done => simp at hph
        subst hphw
        have hcnt : tasks.countP (fun t => t.2 == Phase.inFlight) = 0 := by
          apply List.countP_eq_zero.2
          intro x hx
          simp only [beq_iff_eq]
          intro hx2
          exact hin ⟨x, hx, by simpa using hx2⟩
        have hperm : permits = max_concurrent := by
          have := hinv
          simp only [semInv, inFlightCount, hcnt] at this
          omega
        obtain ⟨p, hp⟩ : ∃ p, permits = p + 1 := ⟨permits - 1, by omega⟩
        subst hp
        obtain ⟨pre, post, htasks⟩ := List.append_of_mem hmem
        subst htasks
        have hstep := cycleStep.acquire pre post e p dispatched
        have hm' : measureC (pre ++ (e, Phase.inFlight) :: post)
            < measureC (pre ++ (e, Phase.waiting) :: post) := by
          simp [measureC, List.countP_append, List.countP_cons]
          omega
        have hinv' := semInv_step hinv hstep
        obtain ⟨s', hpath, hdone⟩ :=
          ih (measureC (pre ++ (e, Phase.inFlight) :: post)) (hm ▸ hm')
            ⟨pre ++ (e, Phase.inFlight) :: post, p, dispatched ++ [e]⟩ rfl hinv'
        exact ⟨s', Relation.ReflTransGen.head hstep hpath, hdone⟩

/-- The fixed context of play_randomly: the credential file backing the
is_enabled checks, the max_concurrent bound of the semaphore, and the
configured episode list. -/
structure SchedConfig where
  fs : FileState
  max_concurrent : Nat
  episode_ids : List String

/-- Control position of play_randomly: at the top of the while body about
to call is_enabled, inside a cycle awaiting its gather, or past the
break. -/
inductive SchedPhase where
  | checking : SchedPhase
  | running : CycleState → SchedPhase
  | stopped : SchedPhase
deriving DecidableEq

/-- State of the play_randomly loop: the index of the current cycle (how
many gather barriers have been passed), the control position, and the
cumulative number of play commands issued across all cycles. -/
structure SchedState where
  cycleIdx : Nat
  phase : SchedPhase
  sent : Nat
deriving DecidableEq

/-- Small-step semantics of play_randomly. startCycle: is_enabled answers
true, random.shuffle picks some permutation perm of the episode list, one
task per entry is handed to asyncio.gather, none yet admitted. stop:
is_enabled answers false, the loop prints and breaks. work: a task of the
current cycle takes a cycleStep, the cumulative command count growing by
the commands the step issued. nextCycle: asyncio.gather returns once every
task is done, and control reaches the top of the while body again. -/
inductive schedStep (cfg : SchedConfig) : SchedState → SchedState → Prop
  | startCycle (n sent : Nat) (perm : List String)
      (hperm : perm.Perm cfg.episode_ids)
      (hen : (is_enabled cfg.fs).1 = true) :
      schedStep cfg ⟨n, .checking, sent⟩
        ⟨n, .running (initCycle cfg.max_concurrent perm), sent⟩
  | stop (n sent : Nat) (hen : (is_enabled cfg.fs).1 = false) :
      schedStep cfg ⟨n, .checking, sent⟩ ⟨n, .stopped, sent⟩
  | work (n sent : Nat) (c c' : CycleState) (h : cycleStep c c') :
      schedStep cfg ⟨n, .running c, sent⟩
        ⟨n, .running c', sent + (c'.dispatched.length - c.dispatched.length)⟩
  | nextCycle (n sent : Nat) (c : CycleState) (h : allDone c.tasks) :
      schedStep cfg ⟨n, .running c, sent⟩ ⟨n + 1, .checking, sent⟩

/-- play_randomly starts at the top of its while body, before cycle 0,
with nothing dispatched. -/
def schedInit : SchedState := ⟨0, .checking, 0⟩

theorem stopped_terminal (cfg : SchedConfig) (n sent : Nat)
    (s' : SchedState) : ¬ schedStep cfg ⟨n, .stopped, sent⟩ s' := by
  intro h
  cases h

theorem cycleStep_lift (cfg : SchedConfig) {c c' : CycleState}
    (h : Relation.ReflTransGen cycleStep c c') (n sent : Nat) :
    ∃ sent', Relation.ReflTransGen (schedStep cfg)
      ⟨n, .running c, sent⟩ ⟨n, .running c', sent'⟩ := by
  induction h with
  | refl => exact ⟨sent, .refl⟩
  | tail _ hstep ih =>
    obtain ⟨sent', hpath⟩ := ih
    exact ⟨_, hpath.tail (schedStep.work n sent' _ _ hstep)⟩

theorem run_to_barrier (cfg : SchedConfig) (hpos : 0 < cfg.max_concurrent)
    (perm : List String) (n sent : Nat) :
    ∃ sent', Relation.ReflTransGen (schedStep cfg)
      ⟨n, .running (initCycle cfg.max_concurrent perm), sent⟩
      ⟨n + 1, .checking, sent'⟩ := by
  obtain ⟨c', hpath, hdone⟩ :=
    cycle_progress cfg.max_concurrent hpos
      (measureC (initCycle cfg.max_concurrent perm).tasks)
      (initCycle cfg.max_concurrent perm) rfl
      (semInv_init cfg.max_concurrent perm)
  obtain ⟨sent', hlift⟩ := cycleStep_lift cfg hpath n sent
  exact ⟨sent', hlift.tail (schedStep.nextCycle n sent' c' hdone)⟩

/-- C1: in one cycle of play_randomly, at no reachable point are more than
max_concurrent play commands in flight past the semaphore's admission
gate, and a play command is only issued (dispatched grows) from a state
with a free slot. -/
theorem cycle_inflight_bounded (max_concurrent : Nat) (perm : List String)
    (s : CycleState)
    (h : Relation.ReflTransGen cycleStep (initCycle max_concurrent perm) s) :
    inFlightCount s ≤ max_concurrent ∧
      ∀ s', cycleStep s s' → s'.dispatched ≠ s.dispatched →
        inFlightCount s < max_concurrent := by
  have hinv := semInv_reachable h
  constructor
  · simp only [semInv] at hinv
    omega
  · intro s' hstep hdisp
    cases hstep with
    | acquire pre post e p dispatched =>
      simp only [semInv, inFlightCount] at hinv ⊢
      omega
    | finish pre post e p dispatched =>
      simp at hdisp

theorem cycle_inflight_bounded_witness :
    inFlightCount ⟨[("a", Phase.inFlight), ("b", Phase.waiting),
        ("c", Phase.waiting)], 1, ["a"]⟩ ≤ 2 ∧
      ∀ s', cycleStep ⟨[("a", Phase.inFlight), ("b", Phase.waiting),
          ("c", Phase.waiting)], 1, ["a"]⟩ s' →
        s'.dispatched ≠ (⟨[("a", Phase.inFlight), ("b", Phase.waiting),
          ("c", Phase.waiting)], 1, ["a"]⟩ : CycleState).dispatched →
        inFlightCount ⟨[("a", Phase.inFlight), ("b", Phase.waiting),
          ("c", Phase.waiting)], 1, ["a"]⟩ < 2 :=
  cycle_inflight_bounded 2 ["a", "b", "c"] _
    (Relation.ReflTransGen.single
      (cycleStep.acquire [] [("b", Phase.waiting), ("c", Phase.waiting)]
        "a" 1 []))

/-- C2: the only step of play_randomly that moves to the next cycle index
is the gather barrier, which requires every task of the current cycle to
be done; so no action of cycle N+1 (the enabled re-check and shuffle at
the new checking position, or any later dispatch) happens before all of
cycle N's tasks have completed. -/
theorem cycle_barrier_before_next (cfg : SchedConfig) (s s' : SchedState)
    (h : schedStep cfg s s') (hne : s'.cycleIdx ≠ s.cycleIdx) :
    s'.cycleIdx = s.cycleIdx + 1 ∧ s'.phase = .checking ∧
      ∃ c, s.phase = .running c ∧ allDone c.tasks := by
  cases h with
  | startCycle n sent perm hperm hen => simp at hne
  | stop n sent hen => simp at hne
  | work n sent c c' hc => simp at hne
  | nextCycle n sent c hdone => exact ⟨rfl, rfl, c, rfl, hdone⟩

theorem cycle_barrier_before_next_witness :
    (⟨1, .checking, 1⟩ : SchedState).cycleIdx
        = (⟨0, .running ⟨[("a", Phase.done)], 1, ["a"]⟩, 1⟩
            : SchedState).cycleIdx + 1 ∧
      (⟨1, .checking, 1⟩ : SchedState).phase = .checking ∧
      ∃ c, (⟨0, .running ⟨[("a", Phase.done)], 1, ["a"]⟩, 1⟩
          : SchedState).phase = .running c ∧ allDone c.tasks :=
  cycle_barrier_before_next ⟨.missing, 1, ["a"]⟩ _ _
    (schedStep.nextCycle 0 1 ⟨[("a", Phase.done)], 1, ["a"]⟩
      (by simp [allDone]))
    (by simp)

/-- C3: when one cycle's tasks have all completed, the play commands it
issued are a permutation of the configured episode list whatever
permutation the shuffle produced, so each configured episode id is
dispatched with exactly its configured multiplicity: no duplicates, no
omissions. -/
theorem cycle_dispatches_exactly_once (max_concurrent : Nat)
    (episode_ids perm : List String) (hp : perm.Perm episode_ids)
    (s : CycleState)
    (h : Relation.ReflTransGen cycleStep (initCycle max_concurrent perm) s)
    (hdone : allDone s.tasks) :
    s.dispatched.Perm episode_ids ∧
      ∀ e, s.dispatched.count e = episode_ids.count e := by
  obtain ⟨hperm, hfst⟩ := dispatchInv_reachable h
  rw [waitingIds_eq_nil_of_allDone hdone, List.append_nil] at hperm
  rw [hfst] at hperm
  have hfinal : s.dispatched.Perm episode_ids := hperm.trans hp
  exact ⟨hfinal, fun e => hfinal.count_eq e⟩

theorem cycle_dispatches_exactly_once_witness :
    (⟨[("b", Phase.done), ("a", Phase.done)], 1, ["b", "a"]⟩
        : CycleState).dispatched.Perm ["a", "b"] ∧
      ∀ e, (⟨[("b", Phase.done), ("a", Phase.done)], 1, ["b", "a"]⟩
        : CycleState).dispatched.count e = (["a", "b"] : List String).count e :=
  cycle_dispatches_exactly_once 1 ["a", "b"] ["b", "a"]
    (List.Perm.swap "a" "b" []) _
    (Relation.ReflTransGen.head
      (cycleStep.acquire [] [("a", Phase.waiting)] "b" 0 [])
      (Relation.ReflTransGen.head
        (cycleStep.finish [] [("a", Phase.waiting)] "b" 0 ["b"])
        (Relation.ReflTransGen.head
          (cycleStep.acquire [("b", Phase.done)] [] "a" 0 ["b"])
          (Relation.ReflTransGen.single
            (cycleStep.finish [("b", Phase.done)] [] "a" 0 ["b", "a"])))))
    (by simp [allDone])

theorem sched_disabled_reach (cfg : SchedConfig)
    (hen : (is_enabled cfg.fs).1 = false) (s : SchedState)
    (h : Relation.ReflTransGen (schedStep cfg) schedInit s) :
    s = schedInit ∨ s = ⟨0, .stopped, 0⟩ := by
  induction h with
  | refl => exact Or.inl rfl
  | tail hprev hstep ih =>
    cases ih with
    | inl heq =>
      rw [heq] at hstep
      change schedStep cfg ⟨0, .checking, 0⟩ _ at hstep
      cases hstep with
      | startCycle n sent perm hperm hen2 => rw [hen] at hen2; cases hen2
      | stop n sent hen2 => exact Or.inr rfl
    | inr heq =>
      rw [heq] at hstep
      exact absurd hstep (stopped_terminal cfg 0 0 _)

/-- C8: when is_enabled answers false at the first loop entry, the
scheduler reaches only the initial checking state and the stopped state of
cycle 0: the cycle index never advances, no play command is ever sent, no
cycle is ever entered, and the only possible step is the clean transition
to the terminal stopped state. -/
theorem disabled_zero_cycles (cfg : SchedConfig)
    (hen : (is_enabled cfg.fs).1 = false) (s : SchedState)
    (h : Relation.ReflTransGen (schedStep cfg) schedInit s) :
    s.cycleIdx = 0 ∧ s.sent = 0 ∧ (∀ c, s.phase ≠ .running c) ∧
      ∀ t, schedStep cfg s t → t = ⟨0, .stopped, 0⟩ := by
  cases sched_disabled_reach cfg hen s h with
  | inl heq =>
    subst heq
    refine ⟨rfl, rfl, ?_, ?_⟩
    · intro c hc
      change SchedPhase.checking = SchedPhase.running c at hc
      cases hc
    · intro t ht
      change schedStep cfg ⟨0, .checking, 0⟩ _ at ht
      cases ht with
      | startCycle n sent perm hperm hen2 => rw [hen] at hen2; cases hen2
      | stop n sent hen2 => rfl
  | inr heq =>
    subst heq
    refine ⟨rfl, rfl, ?_, ?_⟩
    · intro c hc
      change SchedPhase.stopped = SchedPhase.running c at hc
      cases hc
    · intro t ht
      exact absurd ht (stopped_terminal cfg 0 0 t)

theorem disabled_zero_cycles_witness :
    (⟨0, .stopped, 0⟩ : SchedState).cycleIdx = 0 ∧
      (⟨0, .stopped, 0⟩ : SchedState).sent = 0 ∧
      (∀ c, (⟨0, .stopped, 0⟩ : SchedState).phase ≠ .running c) ∧
      ∀ t, schedStep ⟨.doc ⟨some { emptySection with enabled := some false },
          []⟩, 5, ["a", "b"]⟩ ⟨0, .stopped, 0⟩ t →
        t = ⟨0, .stopped, 0⟩ :=
  disabled_zero_cycles
    ⟨.doc ⟨some { emptySection with enabled := some false }, []⟩, 5,
      ["a", "b"]⟩ rfl _
    (Relation.ReflTransGen.single (schedStep.stop 0 0 rfl))

theorem request_new_token_spec (fs : FileState) (ex : ExchangeResponse) :
    (request_new_token fs ex).2.1 = 1 ∧
    (ex.status = 200 →
      ∃ d', request_new_token fs ex = (.ok ex.access_token, 1, .doc d') ∧
        (d'.spotify.getD emptySection).access_token = ex.access_token) ∧
    (ex.status ≠ 200 →
      request_new_token fs ex
        = (.error (.authError ex.status ex.body), 1, fs)) := by
  by_cases h : ex.status = 200
  · refine ⟨by simp [request_new_token, h], fun _ =>
      ⟨update_credentials_file fs ex.access_token,
        by simp [request_new_token, h], ?_⟩,
      fun hne => absurd h hne⟩
    simp [update_credentials_file]
  · exact ⟨by simp [request_new_token, h], fun h200 => absurd h200 h,
      fun _ => by simp [request_new_token, h]⟩

/-- C4: get_access_token performs a token exchange if and only if the
cached token is absent (or empty) or its identity probe answers other than
200. With a valid cached token there are zero exchange calls and the
cached token is returned with the file untouched; otherwise exactly one
exchange call happens, and if it answers 200 the new token is persisted to
the file before being returned (the returned token is the one now stored),
while a failing exchange raises with status and body. -/
theorem getValidToken_exchange_spec (d : CredDoc) (probe : String → Nat)
    (ex : ExchangeResponse) :
    ((∃ t, (d.spotify.getD emptySection).access_token = some t ∧ t ≠ "" ∧
        probe t = 200) →
      get_access_token (.doc d) probe ex
        = (.ok ((d.spotify.getD emptySection).access_token), 0, .doc d)) ∧
    (¬(∃ t, (d.spotify.getD emptySection).access_token = some t ∧ t ≠ "" ∧
        probe t = 200) →
      (get_access_token (.doc d) probe ex).2.1 = 1 ∧
      (ex.status = 200 →
        ∃ d', get_access_token (.doc d) probe ex
            = (.ok ex.access_token, 1, .doc d') ∧
          (d'.spotify.getD emptySection).access_token = ex.access_token) ∧
      (ex.status ≠ 200 →
        get_access_token (.doc d) probe ex
          = (.error (.authError ex.status ex.body), 1, .doc d))) := by
  rcases htok : (d.spotify.getD emptySection).access_token with _ | t
  · constructor
    · rintro ⟨t, ht, -, -⟩
      cases ht
    · intro _
      have hreq : get_access_token (.doc d) probe ex
          = request_new_token (.doc d) ex := by
        simp [get_access_token, htok]
      rw [hreq]
      exact request_new_token_spec (.doc d) ex
  · by_cases hemp : t = ""
    · subst hemp
      constructor
      · rintro ⟨t', ht', hne, -⟩
        cases ht'
        exact absurd rfl hne
      · intro _
        have hreq : get_access_token (.doc d) probe ex
            = request_new_token (.doc d) ex := by
          simp [get_access_token, htok]
        rw [hreq]
        exact request_new_token_spec (.doc d) ex
    · by_cases hp : probe t = 200
      · constructor
        · intro _
          simp [get_access_token, htok, is_token_valid, hp, hemp]
        · intro hno
          exact absurd ⟨t, rfl, hemp, hp⟩ hno
      · constructor
        · rintro ⟨t', ht', -, hp'⟩
          cases ht'
          exact absurd hp' hp
        · intro _
          have hreq : get_access_token (.doc d) probe ex
              = request_new_token (.doc d) ex := by
            simp [get_access_token, htok, is_token_valid, hp]
          rw [hreq]
          exact request_new_token_spec (.doc d) ex

theorem getValidToken_exchange_spec_witness :
    get_access_token
        (.doc ⟨some { emptySection with access_token := some "tok" }, []⟩)
        (fun _ => 200) ⟨500, "err", none⟩
      = (.ok (some "tok"), 0,
        .doc ⟨some { emptySection with access_token := some "tok" }, []⟩) :=
  (getValidToken_exchange_spec
      ⟨some { emptySection with access_token := some "tok" }, []⟩
      (fun _ => 200) ⟨500, "err", none⟩).1
    ⟨"tok", rfl, by decide, rfl⟩

/-- C5: a parseable credential document in which any one of client_id,
client_secret, podcast_id, episode_ids, device_id is missing or empty
makes load_client_credentials fail with the missing-fields ConfigError, so
construction of the fetcher does not proceed. -/
theorem missing_field_config_error (s : SpotifySection)
    (dExtra : List (String × String))
    (h : truthyS s.client_id = false ∨ truthyS s.client_secret = false ∨
      truthyS s.podcast_id = false ∨ s.episode_ids = [] ∨
      truthyS s.device_id = false) :
    load_client_credentials (.doc ⟨some s, dExtra⟩)
      = .error .missingFields := by
  rcases h with h | h | h | h | h <;>
    simp [load_client_credentials, h]

/-- A section missing only client_id, used to exercise the missing-field
path. -/
def sectionNoClientId : SpotifySection :=
  { client_id := none, client_secret := some "cs", podcast_id := some "p",
    episode_ids := ["e1"], device_id := some "dev", access_token := none,
    enabled := none, sExtra := [] }

theorem missing_field_config_error_witness :
    load_client_credentials (.doc ⟨some sectionNoClientId, []⟩)
      = .error .missingFields :=
  missing_field_config_error sectionNoClientId [] (Or.inl rfl)

/-- C6: persisting a new token into a readable document changes only the
access_token of the spotify section: every other section field, the extra
keys of the section and of the document are untouched, and consequently a
fresh load_client_credentials and a fresh is_enabled read exactly what
they read before. -/
theorem persist_token_frame (d : CredDoc) (tok : Option String) :
    (update_credentials_file (.doc d) tok).dExtra = d.dExtra ∧
    ((update_credentials_file (.doc d) tok).spotify.getD
        emptySection).access_token = tok ∧
    ((update_credentials_file (.doc d) tok).spotify.getD
        emptySection).client_id = (d.spotify.getD emptySection).client_id ∧
    ((update_credentials_file (.doc d) tok).spotify.getD
        emptySection).client_secret
      = (d.spotify.getD emptySection).client_secret ∧
    ((update_credentials_file (.doc d) tok).spotify.getD
        emptySection).podcast_id = (d.spotify.getD emptySection).podcast_id ∧
    ((update_credentials_file (.doc d) tok).spotify.getD
        emptySection).episode_ids
      = (d.spotify.getD emptySection).episode_ids ∧
    ((update_credentials_file (.doc d) tok).spotify.getD
        emptySection).device_id = (d.spotify.getD emptySection).device_id ∧
    ((update_credentials_file (.doc d) tok).spotify.getD
        emptySection).enabled = (d.spotify.getD emptySection).enabled ∧
    ((update_credentials_file (.doc d) tok).spotify.getD
        emptySection).sExtra = (d.spotify.getD emptySection).sExtra ∧
    load_client_credentials (.doc (update_credentials_file (.doc d) tok))
      = load_client_credentials (.doc d) ∧
    is_enabled (.doc (update_credentials_file (.doc d) tok))
      = is_enabled (.doc d) := by
  rcases d with ⟨_ | s, dExtra⟩ <;>
    exact ⟨rfl, rfl, rfl, rfl, rfl, rfl, rfl, rfl, rfl, rfl, rfl⟩

/-- C7: a play command answered with a status other than 204 makes that
task report a non-fatal failure carrying the response body (no exception:
the task still yields an outcome), the cycle still produces one outcome
per episode of the shuffled order, and the scheduler still reaches the
next cycle's checking position through the gather barrier. -/
theorem failed_play_nonfatal (resp : String → HttpResponse)
    (perm : List String) (x : String) (cfg : SchedConfig) (n sent : Nat)
    (hx : x ∈ perm) (hfail : (resp x).status ≠ 204)
    (hpos : 0 < cfg.max_concurrent) :
    play_episode_result resp x = .failed x (resp x).body ∧
      PlayOutcome.failed x (resp x).body ∈ run_cycle resp perm ∧
      (run_cycle resp perm).map episodeOf = perm ∧
      ∃ sent', Relation.ReflTransGen (schedStep cfg)
        ⟨n, .running (initCycle cfg.max_concurrent perm), sent⟩
        ⟨n + 1, .checking, sent'⟩ := by
  have h1 : play_episode_result resp x = .failed x (resp x).body := by
    simp [play_episode_result, hfail]
  have hev : ∀ e, episodeOf (play_episode_result resp e) = e := by
    intro e
    by_cases hc : (resp e).status = 204 <;>
      simp [play_episode_result, episodeOf, hc]
  refine ⟨h1, ?_, ?_, run_to_barrier cfg hpos perm n sent⟩
  · rw [← h1]
    simp only [run_cycle]
    exact List.mem_map_of_mem _ hx
  · have hfeq : episodeOf ∘ play_episode_result resp = id := funext hev
    simp only [run_cycle, List.map_map, hfeq, List.map_id]

theorem failed_play_nonfatal_witness :
    play_episode_result
        (fun e => if e = "x" then ⟨403, "forbidden"⟩ else ⟨204, ""⟩) "x"
      = .failed "x" ((fun e : String => if e = "x"
          then (⟨403, "forbidden"⟩ : HttpResponse)
          else ⟨204, ""⟩) "x").body ∧
    PlayOutcome.failed "x" ((fun e : String => if e = "x"
          then (⟨403, "forbidden"⟩ : HttpResponse)
          else ⟨204, ""⟩) "x").body
      ∈ run_cycle (fun e => if e = "x" then ⟨403, "forbidden"⟩
          else ⟨204, ""⟩) ["x", "y"] ∧
    (run_cycle (fun e => if e = "x" then ⟨403, "forbidden"⟩
        else ⟨204, ""⟩) ["x", "y"]).map episodeOf = ["x", "y"] ∧
    ∃ sent', Relation.ReflTransGen
        (schedStep ⟨.missing, 2, ["x", "y"]⟩)
        ⟨0, .running (initCycle 2 ["x", "y"]), 0⟩
        ⟨0 + 1, .checking, sent'⟩ :=
  failed_play_nonfatal
    (fun e => if e = "x" then ⟨403, "forbidden"⟩ else ⟨204, ""⟩)
    ["x", "y"] "x" ⟨.missing, 2, ["x", "y"]⟩ 0 0
    (by simp) (by simp) (by decide)

/-- C9: whenever the try body of is_enabled raises (missing file or
malformed JSON), is_enabled returns false together with the warning print,
and on a parseable document it returns the stored flag (default false)
with no warning — in every document state it returns a value rather than
propagating an exception. -/
theorem isEnabled_lenient (fs : FileState) :
    ((∃ e, read_enabled_raw fs = .error e) → is_enabled fs = (false, true)) ∧
    (∀ d, fs = .doc d →
      is_enabled fs
        = ((d.spotify.getD emptySection).enabled.getD false, false)) := by
  constructor
  · rintro ⟨e, he⟩
    simp [is_enabled, he]
  · rintro d rfl
    rfl

theorem isEnabled_lenient_witness :
    is_enabled .missing = (false, true) :=
  (isEnabled_lenient .missing).1 ⟨.fileNotFound, rfl⟩

/-- C10: when the credential file is missing or not valid JSON at persist
time, update_credentials_file raises nothing and writes a fresh document
whose only content is a spotify section holding the new access_token; the
unreadable previous content is discarded. -/
theorem persist_on_unreadable_file (tok : Option String) :
    update_credentials_file .missing tok
        = ⟨some { emptySection with access_token := tok }, []⟩ ∧
      update_credentials_file .malformed tok
        = ⟨some { emptySection with access_token := tok }, []⟩ :=
  ⟨rfl, rfl⟩
